import Mathlib

/-!
# Verification of the sales-data ETL pipeline

A shallow embedding of the repository's ETL code:

* `Staging` models `staging/clean_data.py` (the Cleaner),
* `SL` models `load/load.py` (the per-file staging loader),
* `DW` models `datawarehouse/load.py` together with the schema from
  `datawarehouse/createtables.py` (the dimensional loader).

CSV cells are `Option String` (`none` is pandas `NaN`); warehouse tables are
lists of typed rows; SQL upserts (`ON CONFLICT DO NOTHING` / `DO UPDATE`) are
folds over the rows the code feeds to the `INSERT ... SELECT` statements, with
PostgreSQL's "cannot affect row a second time" failure modelled explicitly.
-/

namespace ETL

/-! ## Python string primitives

The Python string methods the ETL code uses, implemented over `List Char`
so that all definitions reduce in the kernel. -/

/-- Python `str.lower` on a single ASCII character. -/
def pyLowerChar (c : Char) : Char :=
  if 'A' ≤ c ∧ c ≤ 'Z' then Char.ofNat (c.toNat + 32) else c

/-- Python `str.lower` (ASCII). -/
def pyLower (s : String) : String := ⟨s.data.map pyLowerChar⟩

/-- The characters Python `str.strip` removes. -/
def isPySpace (c : Char) : Bool :=
  c = ' ' || c = '\t' || c = '\n' || c = '\x0d' || c = '\x0b' || c = '\x0c'

/-- Python `str.strip`. -/
def pyStrip (s : String) : String :=
  ⟨((s.data.dropWhile isPySpace).reverse.dropWhile isPySpace).reverse⟩

/-- Python `str.replace` for single-character patterns, e.g. `replace(" ", "_")`. -/
def replaceChar (a b : Char) (s : String) : String :=
  ⟨s.data.map (fun c => if c = a then b else c)⟩

/-- Python `s.endswith(suffix)`. -/
def pyEndsWith (s suffix : String) : Bool :=
  List.isSuffixOf suffix.data s.data

/-! ## CSV frames -/

/-- A CSV/DataFrame cell: `none` is pandas `NaN` (an empty cell). -/
abbrev Cell := Option String

/-- Python `str(item)` on a cell: `NaN` prints as `"nan"`. -/
def cellStr (c : Cell) : String := c.getD "nan"

/-- An in-memory DataFrame: column names plus rectangular rows of cells. -/
structure Frame where
  cols : List String
  rows : List (List Cell)
deriving DecidableEq

end ETL

namespace Staging
open ETL

/-! ## `staging/clean_data.py` — the Cleaner -/

/-- Column normalization of `clean_data.py`:
`col.strip().lower().replace(" ", "_")` — spaces become underscores,
hyphens are left alone. -/
def normalizeCol (c : String) : String :=
  replaceChar ' ' '_' (pyLower (pyStrip c))

/-- `df.dropna(how="all")` drops a row exactly when every cell is `NaN`. -/
def isAllEmpty (r : List Cell) : Bool := r.all (fun c => c.isNone)

/-- One file's pass through the Cleaner: rename the columns, drop all-empty
rows (`clean_data.py` lines 12–13). -/
def cleanFrame (f : Frame) : Frame :=
  { cols := f.cols.map normalizeCol
    rows := f.rows.filter (fun r => !isAllEmpty r) }

/-- The Cleaner's directory loop (`clean_data.py` lines 9–14): each `.csv`
file is cleaned and written back under the same filename; other files are
skipped. -/
def cleanFiles (files : List (String × Frame)) : List (String × Frame) :=
  (files.filter (fun p => pyEndsWith p.1 ".csv")).map
    (fun p => (p.1, cleanFrame p.2))

end Staging

namespace DW
open ETL

/-! ## `datawarehouse/load.py` — ingest -/

/-- The leaked-header test of `load.py` lines 60–61: a row is filtered out when
`str(item).strip().lower() == header_lower[i]` holds for every cell, where
`header_lower[i] = col.lower()` (the column name is lowercased but *not*
stripped). -/
def isLeakedRow (cols : List String) (r : List Cell) : Bool :=
  (r.zip cols).all (fun p => pyLower (pyStrip (cellStr p.1)) == pyLower p.2)

/-- The defensive re-cleaning step applied to each CSV on ingest
(`load.py` line 61): drop the rows `isLeakedRow` flags. -/
def leakedHeaderFilter (f : Frame) : Frame :=
  { cols := f.cols
    rows := f.rows.filter (fun r => !isLeakedRow f.cols r) }

/-- The spec's wording of the leaked-header test, for comparison with
`isLeakedRow`: "every cell matches the corresponding column name,
case-insensitively" — no whitespace stripping on either side. -/
def specMatchesHeaderCI (cols : List String) (r : List Cell) : Bool :=
  (r.zip cols).all (fun p => pyLower (cellStr p.1) == pyLower p.2)

/-! ## Value parsing

`pd.to_numeric(..., errors="coerce")` on plain decimal literals and
`pd.to_datetime(..., errors="coerce").dt.date` on ISO dates; any input
outside the modelled grammar parses to `none` (pandas `NaN`/`NaT`),
never to an error. -/

/-- Numeric value of a digit list, most significant first. -/
def digitsVal (l : List Char) : Nat :=
  l.foldl (fun a c => a * 10 + (c.toNat - 48)) 0

/-- Parse a non-empty all-digit list (used for date components). -/
def parseNatList? (l : List Char) : Option Nat :=
  if l ≠ [] ∧ l.all Char.isDigit then some (digitsVal l) else none

/-- `pd.to_numeric(s, errors="coerce")` on an optionally signed decimal
literal; anything else coerces to `NaN` (`none`). -/
def parseDecimal? (s : String) : Option ℚ :=
  let l := (pyStrip s).data
  let (neg, l) := match l with
    | '-' :: rest => (true, rest)
    | '+' :: rest => (false, rest)
    | l => (false, l)
  let intPart := l.takeWhile Char.isDigit
  let rest := l.dropWhile Char.isDigit
  let val? : Option ℚ :=
    match rest with
    | [] => if intPart.isEmpty then none else some ((digitsVal intPart : ℤ) : ℚ)
    | '.' :: frac =>
      if frac.all Char.isDigit && !(intPart.isEmpty && frac.isEmpty) then
        some ((digitsVal intPart : ℚ) + (digitsVal frac : ℚ) / ((10 : ℚ) ^ frac.length))
      else none
    | _ => none
  val?.map (fun v => if neg then -v else v)

/-- A calendar date, as produced by `pd.to_datetime(...).dt.date`. -/
structure Date where
  year : Nat
  month : Nat
  day : Nat
deriving DecidableEq

/-- Split a character list on a separator character. -/
def splitOnChar (sep : Char) : List Char → List (List Char)
  | [] => [[]]
  | a :: t =>
    let r := splitOnChar sep t
    if a = sep then [] :: r
    else
      match r with
      | h :: t' => (a :: h) :: t'
      | [] => [[a]]

/-- `pd.to_datetime(s, errors="coerce").dt.date` restricted to the ISO
`YYYY-MM-DD` grammar: a parse failure yields `none` (`NaT`), never an
error. -/
def parseDate? (s : String) : Option Date :=
  match splitOnChar '-' (pyStrip s).data with
  | [y, m, d] =>
    match parseNatList? y, parseNatList? m, parseNatList? d with
    | some yn, some mn, some dn =>
      if 1 ≤ mn ∧ mn ≤ 12 ∧ 1 ≤ dn ∧ dn ≤ 31 then some ⟨yn, mn, dn⟩ else none
    | _, _, _ => none
  | _ => none

/-! ## Typed rows of the combined batch

The cleaned CSVs carry the canonical columns
`order_id, product, quantity_ordered, price_each, order_date,
purchase_address`; a `RawRow` is one data row of such a file. -/

/-- One raw data row of a cleaned CSV, cells as read from disk. -/
structure RawRow where
  order_id : Cell
  product : Cell
  quantity_ordered : Cell
  price_each : Cell
  order_date : Cell
  purchase_address : Cell
deriving DecidableEq

/-- The canonical (already normalized) column names of the cleaned CSVs. -/
def canonicalCols : List String :=
  ["order_id", "product", "quantity_ordered", "price_each", "order_date",
   "purchase_address"]

/-- A `RawRow`'s cells, in column order. -/
def rawCells (r : RawRow) : List Cell :=
  [r.order_id, r.product, r.quantity_ordered, r.price_each, r.order_date,
   r.purchase_address]

/-- The ingest leaked-header test on a typed row. -/
def isLeakedRawRow (r : RawRow) : Bool := isLeakedRow canonicalCols (rawCells r)

/-- A row after the per-file pass (`load.py` lines 59–72): the `order_date`
column (the only one whose name contains `"date"`) has been parsed. -/
structure StagedRow where
  order_id : Cell
  product : Cell
  quantity_ordered : Cell
  price_each : Cell
  order_date : Option Date
  purchase_address : Cell
deriving DecidableEq

/-- Per-row date coercion (`load.py` lines 67–70). -/
def stageRow (r : RawRow) : StagedRow :=
  { order_id := r.order_id
    product := r.product
    quantity_ordered := r.quantity_ordered
    price_each := r.price_each
    order_date := r.order_date.bind parseDate?
    purchase_address := r.purchase_address }

/-- One file's ingest (`load.py` lines 56–72): drop leaked header rows, then
coerce the date column. -/
def processFile (rows : List RawRow) : List StagedRow :=
  (rows.filter (fun r => !isLeakedRawRow r)).map stageRow

/-- `pd.concat(all_dfs)` (`load.py` line 85). -/
def combineFiles (files : List (List RawRow)) : List StagedRow :=
  (files.map processFile).flatten

/-! ## Type coercion (`load.py` lines 91–95)

`quantity_ordered` goes through `pd.to_numeric(errors="coerce").fillna(0)
.astype("Int64")`; the final cast is pandas' *safe* cast and raises
`TypeError` on a non-integral float. `price_each` goes through
`pd.to_numeric(errors="coerce").fillna(0.0)` with no cast. -/

/-- A row after both numeric coercions. -/
structure CoercedRow where
  order_id : Cell
  product : Cell
  quantity : ℤ
  price : ℚ
  order_date : Option Date
  purchase_address : Cell
deriving DecidableEq

/-- `pd.to_numeric(errors="coerce").fillna(0).astype("Int64")` on one cell. -/
def coerceQty (c : Cell) : Except String ℤ :=
  match c.bind parseDecimal? with
  | none => .ok 0
  | some q =>
    if q.den = 1 then .ok q.num
    else .error "cannot safely cast non-equivalent float64 to int64"

/-- `pd.to_numeric(errors="coerce").fillna(0.0)` on one cell. -/
def coercePrice (c : Cell) : ℚ := (c.bind parseDecimal?).getD 0

/-- Both coercions on one row. -/
def coerceRow (r : StagedRow) : Except String CoercedRow :=
  match coerceQty r.quantity_ordered with
  | .error e => .error e
  | .ok q =>
    .ok { order_id := r.order_id
          product := r.product
          quantity := q
          price := coercePrice r.price_each
          order_date := r.order_date
          purchase_address := r.purchase_address }

/-- Coerce the whole combined batch; the first failing cast aborts the run
(the `TypeError` is uncaught in `main`). -/
def coerceBatch (rs : List StagedRow) : Except String (List CoercedRow) :=
  rs.mapM coerceRow

/-! ## The warehouse schema (`datawarehouse/createtables.py`) -/

/-- A `dim_customer` row: `customer_pk SERIAL PRIMARY KEY`,
`purchase_address TEXT UNIQUE NOT NULL`, `city`, `state`, `zip_code` nullable. -/
structure CustomerRow where
  customer_pk : Nat
  purchase_address : String
  city : Option String
  state : Option String
  zip_code : Option String
deriving DecidableEq

/-- A `dim_product` row: `product_pk SERIAL PRIMARY KEY`,
`product_name TEXT UNIQUE NOT NULL`, `price_each NUMERIC NOT NULL`,
`category TEXT` nullable. -/
structure ProductRow where
  product_pk : Nat
  product_name : String
  price_each : ℚ
  category : Option String
deriving DecidableEq

/-- A `fact_sales` row: `order_id TEXT PRIMARY KEY`, foreign keys to the two
dimensions, `order_date DATE NOT NULL`, `quantity INTEGER NOT NULL`,
`total_amount NUMERIC NOT NULL`. -/
structure FactRow where
  order_id : String
  customer_pk : Nat
  product_pk : Nat
  order_date : Date
  quantity : ℤ
  total_amount : ℚ
deriving DecidableEq

/-- The warehouse: the three tables plus the two `SERIAL` sequences. -/
structure DB where
  customers : List CustomerRow
  custSeq : Nat
  products : List ProductRow
  prodSeq : Nat
  facts : List FactRow
deriving DecidableEq

/-! ## Dimension extraction (`load.py` lines 105, 137–139)

`drop_duplicates()` keeps the first occurrence of each value (or pair);
`dropna` then drops null keys. -/

/-- `DataFrame.drop_duplicates()`: keep the first occurrence of each value. -/
def dedupFirstAux {α : Type} [DecidableEq α] (seen : List α) : List α → List α
  | [] => []
  | a :: t =>
    if a ∈ seen then dedupFirstAux seen t else a :: dedupFirstAux (a :: seen) t

/-- `DataFrame.drop_duplicates()` on a whole column (or column pair). -/
def dedupFirst {α : Type} [DecidableEq α] (l : List α) : List α :=
  dedupFirstAux [] l

/-- Customer extraction (`load.py` line 105):
`combined_df[['purchase_address']].drop_duplicates().dropna(...)`. -/
def customerAddrs (batch : List CoercedRow) : List String :=
  (dedupFirst (batch.map (·.purchase_address))).filterMap id

/-- Product extraction (`load.py` lines 137–139):
`combined_df[['product', 'price_each']].drop_duplicates().dropna(subset=
['product', 'price_each'])` — distinct *(name, price)* pairs (the coerced
price is never null), with null names dropped; `category` is set to `None`. -/
def productPairs (batch : List CoercedRow) : List (String × ℚ) :=
  (dedupFirst (batch.map (fun r => (r.product, r.price)))).filterMap
    (fun p => p.1.map (fun n => (n, p.2)))

/-! ## Upserts -/

/-- One row of `INSERT INTO dim_customer (purchase_address) ... ON CONFLICT
(purchase_address) DO NOTHING` (`load.py` lines 120–124): the `SERIAL`
sequence advances for every source row, but a conflicting row is discarded
and the existing row is untouched. -/
def insertCustomer (db : DB) (addr : String) : DB :=
  if db.customers.any (fun c => c.purchase_address == addr) then
    { db with custSeq := db.custSeq + 1 }
  else
    { db with
      customers := db.customers ++
        [{ customer_pk := db.custSeq, purchase_address := addr,
           city := none, state := none, zip_code := none }]
      custSeq := db.custSeq + 1 }

/-- The customer phase: upsert every extracted address. -/
def loadCustomers (db : DB) (batch : List CoercedRow) : DB :=
  (customerAddrs batch).foldl insertCustomer db

/-- One row of `INSERT INTO dim_product ... ON CONFLICT (product_name) DO
UPDATE SET price_each = EXCLUDED.price_each, category = EXCLUDED.category`
(`load.py` lines 158–162): on conflict the existing row's price and category
are overwritten (the batch always carries `category = None`). -/
def upsertProduct (db : DB) (p : String × ℚ) : DB :=
  if db.products.any (fun q => q.product_name == p.1) then
    { db with
      products := db.products.map (fun q =>
        if q.product_name == p.1 then
          { q with price_each := p.2, category := none }
        else q)
      prodSeq := db.prodSeq + 1 }
  else
    { db with
      products := db.products ++
        [{ product_pk := db.prodSeq, product_name := p.1,
           price_each := p.2, category := none }]
      prodSeq := db.prodSeq + 1 }

/-- Does a list of product names contain a duplicate? -/
def hasDupNames : List String → Bool
  | [] => false
  | a :: t => t.contains a || hasDupNames t

/-- The product phase. PostgreSQL rejects a single `INSERT ... ON CONFLICT DO
UPDATE` whose source rows share a conflict key ("ON CONFLICT DO UPDATE command
cannot affect row a second time"), and `SELECT DISTINCT product_name,
price_each, category` keeps one row *per pair*, so the command fails exactly
when some product name occurs with two distinct prices; the transaction then
rolls back and `main` returns. Otherwise each pair is upserted. -/
def loadProducts (db : DB) (batch : List CoercedRow) : Except String DB :=
  let pairs := productPairs batch
  if hasDupNames (pairs.map Prod.fst) then
    .error "ON CONFLICT DO UPDATE command cannot affect row a second time"
  else
    .ok (pairs.foldl upsertProduct db)

/-! ## Key resolution and the fact phase (`load.py` lines 176–240) -/

/-- The left-merge of the batch against the re-read `dim_customer` table on
`purchase_address`: a null or unmatched address leaves `customer_pk` null. -/
def lookupCustomerPk (cs : List CustomerRow) (addr : Cell) : Option Nat :=
  match addr with
  | none => none
  | some a => (cs.find? (fun c => c.purchase_address == a)).map (·.customer_pk)

/-- The left-merge against the re-read `dim_product` table on
`product = product_name`. -/
def lookupProductPk (ps : List ProductRow) (name : Cell) : Option Nat :=
  match name with
  | none => none
  | some n => (ps.find? (fun p => p.product_name == n)).map (·.product_pk)

/-- Fact derivation (`load.py` lines 181–194): join both dimensions, compute
`total_amount = quantity_ordered * price_each`, then
`dropna(subset=['order_id', 'customer_pk', 'product_pk', 'order_date'])` —
a row missing any of the four is dropped, never inserted with a null key. -/
def deriveFacts (cs : List CustomerRow) (ps : List ProductRow)
    (batch : List CoercedRow) : List FactRow :=
  batch.filterMap (fun r =>
    match r.order_id, lookupCustomerPk cs r.purchase_address,
          lookupProductPk ps r.product, r.order_date with
    | some oid, some cpk, some ppk, some d =>
      some { order_id := oid, customer_pk := cpk, product_pk := ppk,
             order_date := d, quantity := r.quantity,
             total_amount := (r.quantity : ℚ) * r.price }
    | _, _, _, _ => none)

/-- One row of `INSERT INTO fact_sales ... ON CONFLICT (order_id) DO NOTHING`
(`load.py` lines 228–239): an existing order id makes the insert a no-op. -/
def insertFact (db : DB) (f : FactRow) : DB :=
  if db.facts.any (fun g => g.order_id == f.order_id) then db
  else { db with facts := db.facts ++ [f] }

/-- The fact phase: derive fact rows against the freshly re-read dimension
tables, then upsert them. -/
def loadFacts (db : DB) (batch : List CoercedRow) : DB :=
  (deriveFacts db.customers db.products batch).foldl insertFact db

/-! ## The whole run -/

/-- One run of `datawarehouse/load.py` `main` on the staged files: ingest and
combine, coerce types (an uncaught cast error aborts before any write), load
customers, load products (a failed product merge rolls back and returns with
customers already committed), then load facts. -/
def runLoader (files : List (List RawRow)) (db : DB) : DB :=
  match coerceBatch (combineFiles files) with
  | .error _ => db
  | .ok batch =>
    let db1 := loadCustomers db batch
    match loadProducts db1 batch with
    | .error _ => db1
    | .ok db2 => loadFacts db2 batch

/-- Referential integrity of the star schema: every fact references an
existing customer row and an existing product row. -/
def RefIntegrity (db : DB) : Prop :=
  ∀ f ∈ db.facts,
    (∃ c ∈ db.customers, c.customer_pk = f.customer_pk) ∧
    (∃ p ∈ db.products, p.product_pk = f.product_pk)

/-- The empty warehouse, as `createtables.py` leaves it (sequences start
at 1). -/
def emptyDB : DB :=
  { customers := [], custSeq := 1, products := [], prodSeq := 1, facts := [] }

end DW

namespace SL

/-! ## `load/load.py` — the per-file staging loader -/

/-- A Python value in a row handed to `cursor.execute`: a string, a number,
a parsed date, or `None`/`NaN`. -/
inductive PyVal where
  | str (s : String)
  | num (q : ℚ)
  | date (d : DW.Date)
  | null
deriving DecidableEq

/-- `insert_data_from_df` (`load/load.py` lines 5–21): iterate the DataFrame
rows in order; a row any of whose cell values is the exact string
`'Order Date'` (`if 'Order Date' in values`) is skipped with a debug print;
every other row is inserted. Returns the rows actually inserted, in order. -/
def insert_data_from_df (rows : List (List PyVal)) : List (List PyVal) :=
  rows.filter (fun r => !(r.contains (PyVal.str "Order Date")))

end SL

namespace DW

/-! ## Concrete inputs used by witnesses and counterexamples -/

/-- A well-formed input row: order `A-100`, two USB-C cables at 11.95. -/
def rawA : RawRow :=
  { order_id := some "A-100"
    product := some "USB-C Cable"
    quantity_ordered := some "2"
    price_each := some "11.95"
    order_date := some "2019-04-01"
    purchase_address := some "917 1st St, Dallas, TX 75001" }

/-- A second file re-stating order `A-100` with a different quantity (hence a
different total amount). -/
def rawA3 : RawRow :=
  { rawA with quantity_ordered := some "3" }

/-- A staged row with the numeric but non-integral quantity `"2.5"`. -/
def stagedFrac : StagedRow :=
  { order_id := some "A-200"
    product := some "Monitor"
    quantity_ordered := some "2.5"
    price_each := some "150"
    order_date := some ⟨2019, 5, 1⟩
    purchase_address := some "1 Main St, Boston, MA 02215" }

/-- A coerced row: product `"P"` at price 10. -/
def rowP10 : CoercedRow :=
  { order_id := some "B-1", product := some "P", quantity := 1, price := 10
    order_date := some ⟨2019, 6, 1⟩, purchase_address := some "a1" }

/-- A coerced row: the same product `"P"` at price 20. -/
def rowP20 : CoercedRow :=
  { rowP10 with order_id := some "B-2", price := 20 }

/-- A staged row with non-numeric quantity `"N/A"` and non-numeric price. -/
def stagedNA : StagedRow :=
  { order_id := some "A-300"
    product := some "Keyboard"
    quantity_ordered := some "N/A"
    price_each := some "abc"
    order_date := some ⟨2019, 7, 1⟩
    purchase_address := some "5 Oak St, Austin, TX 73301" }

/-- A raw row whose order date does not parse. -/
def rawND : RawRow :=
  { rawA with order_id := some "A-400", order_date := some "not a date" }

/-- A frame whose column names carry inner padding: its first data row is a
leaked header up to whitespace and case. -/
def hdrFrame : ETL.Frame :=
  { cols := ["Order ID", "Product"]
    rows := [[some " order id ", some "PRODUCT"], [some "A-1", some "Cable"]] }

end DW

namespace SL

/-- Two staged-loader rows: one contaminated with the literal `'Order Date'`
string, one legitimate (lowercase `'order date'` as real data). -/
def rowsOD : List (List PyVal) :=
  [[PyVal.str "A-1", PyVal.str "Order Date"],
   [PyVal.str "A-2", PyVal.str "order date"]]

end SL

namespace Staging

/-- A raw frame: padded/mixed-case headers, one all-empty row, one data row. -/
def frameW : ETL.Frame :=
  { cols := ["Order ID", " Price Each "]
    rows := [[none, none], [some "A-1", some "2"]] }

end Staging

namespace DW

/-! ## Table-level predicates used by the theorems -/

/-- Does `dim_customer` already hold this address? (the `ON CONFLICT
(purchase_address)` test). -/
def addrPresent (cs : List CustomerRow) (a : String) : Bool :=
  cs.any (fun c => c.purchase_address == a)

/-- Does `dim_product` already hold this name? (the `ON CONFLICT
(product_name)` test). -/
def namePresent (ps : List ProductRow) (n : String) : Bool :=
  ps.any (fun q => q.product_name == n)

/-- The `dim_product` rows carrying a given name. -/
def rowsFor (ps : List ProductRow) (n : String) : List ProductRow :=
  ps.filter (fun q => q.product_name == n)

/-- Does `fact_sales` already hold this order id? (the `ON CONFLICT
(order_id)` test). -/
def oidPresent (fs : List FactRow) (o : String) : Bool :=
  fs.any (fun f => f.order_id == o)

end DW

namespace ETL

/-! ## Generic fold lemmas -/

/-- A fold leaves every state component its step does not touch unchanged. -/
theorem foldl_field_eq {α β γ : Type _} (step : β → α → β) (f : β → γ)
    (h : ∀ d x, f (step d x) = f d) :
    ∀ (l : List α) (d : β), f (l.foldl step d) = f d := by
  intro l
  induction l with
  | nil => intro d; rfl
  | cons a t ih => intro d; rw [List.foldl_cons, ih, h]

/-- A list maps to itself under a pointwise-identity function. -/
theorem map_eq_self {α : Type _} (f : α → α) (l : List α)
    (h : ∀ x ∈ l, f x = x) : l.map f = l := by
  induction l with
  | nil => rfl
  | cons a t ih =>
    rw [List.map_cons, h a (List.mem_cons_self a t),
      ih (fun x hx => h x (List.mem_cons_of_mem a hx))]

/-- `dedupFirstAux` never emits an element of `seen`. -/
theorem dedupFirstAux_not_mem_seen {α : Type} [DecidableEq α]
    (l : List α) (seen : List α) (a : α) (ha : a ∈ seen) :
    a ∉ DW.dedupFirstAux seen l := by
  induction l generalizing seen with
  | nil => simp [DW.dedupFirstAux]
  | cons b t ih =>
    unfold DW.dedupFirstAux
    split
    · exact ih seen ha
    · intro hmem
      rcases List.mem_cons.mp hmem with rfl | hmem
      · exact absurd ha (by assumption)
      · exact ih (b :: seen) (List.mem_cons_of_mem b ha) hmem

/-- `drop_duplicates` produces a duplicate-free list. -/
theorem dedupFirstAux_nodup {α : Type} [DecidableEq α]
    (l : List α) (seen : List α) : (DW.dedupFirstAux seen l).Nodup := by
  induction l generalizing seen with
  | nil => simp [DW.dedupFirstAux]
  | cons b t ih =>
    unfold DW.dedupFirstAux
    split
    · exact ih seen
    · exact List.nodup_cons.mpr
        ⟨dedupFirstAux_not_mem_seen t (b :: seen) b (List.mem_cons_self b seen),
         ih (b :: seen)⟩

end ETL

namespace DW

/-! ## Customer-phase lemmas -/

theorem insertCustomer_products (db : DB) (a : String) :
    (insertCustomer db a).products = db.products := by
  unfold insertCustomer; split <;> rfl

theorem insertCustomer_facts (db : DB) (a : String) :
    (insertCustomer db a).facts = db.facts := by
  unfold insertCustomer; split <;> rfl

theorem loadCustomers_products (db : DB) (b : List CoercedRow) :
    (loadCustomers db b).products = db.products :=
  ETL.foldl_field_eq insertCustomer DB.products insertCustomer_products _ _

theorem loadCustomers_facts (db : DB) (b : List CoercedRow) :
    (loadCustomers db b).facts = db.facts :=
  ETL.foldl_field_eq insertCustomer DB.facts insertCustomer_facts _ _

theorem insertCustomer_present_self (db : DB) (a : String) :
    addrPresent (insertCustomer db a).customers a = true := by
  unfold insertCustomer addrPresent
  split
  · assumption
  · simp

theorem insertCustomer_present_mono (db : DB) (x a : String)
    (h : addrPresent db.customers a = true) :
    addrPresent (insertCustomer db x).customers a = true := by
  unfold insertCustomer addrPresent at *
  split
  · exact h
  · simp only [List.any_append, h, Bool.true_or]

theorem custFold_present_mono (l : List String) (db : DB) (a : String)
    (h : addrPresent db.customers a = true) :
    addrPresent ((l.foldl insertCustomer db)).customers a = true := by
  induction l generalizing db with
  | nil => exact h
  | cons x t ih => exact ih (insertCustomer db x) (insertCustomer_present_mono db x a h)

theorem custFold_present (l : List String) (db : DB) (a : String) (ha : a ∈ l) :
    addrPresent ((l.foldl insertCustomer db)).customers a = true := by
  induction l generalizing db with
  | nil => cases ha
  | cons x t ih =>
    rcases List.mem_cons.mp ha with rfl | ha'
    · exact custFold_present_mono t (insertCustomer db a) a (insertCustomer_present_self db a)
    · exact ih (insertCustomer db x) ha'

theorem insertCustomer_customers_of_present (db : DB) (a : String)
    (h : addrPresent db.customers a = true) :
    (insertCustomer db a).customers = db.customers := by
  unfold insertCustomer
  unfold addrPresent at h
  rw [if_pos h]

theorem custFold_noop (l : List String) (db : DB)
    (h : ∀ a ∈ l, addrPresent db.customers a = true) :
    (l.foldl insertCustomer db).customers = db.customers := by
  induction l generalizing db with
  | nil => rfl
  | cons x t ih =>
    rw [List.foldl_cons]
    have hx := insertCustomer_customers_of_present db x (h x (List.mem_cons_self x t))
    rw [ih (insertCustomer db x) (fun a ha => by
      rw [addrPresent, hx]; exact h a (List.mem_cons_of_mem x ha)), hx]

theorem insertCustomer_mem (db : DB) (x : String) (c : CustomerRow)
    (hc : c ∈ (insertCustomer db x).customers) :
    c ∈ db.customers ∨ (c.city = none ∧ c.state = none ∧ c.zip_code = none) := by
  unfold insertCustomer at hc
  split at hc
  · exact Or.inl hc
  · rcases List.mem_append.mp hc with h | h
    · exact Or.inl h
    · simp only [List.mem_singleton] at h
      subst h
      exact Or.inr ⟨rfl, rfl, rfl⟩

theorem custFold_mem (l : List String) (db : DB) (c : CustomerRow)
    (hc : c ∈ (l.foldl insertCustomer db).customers) :
    c ∈ db.customers ∨ (c.city = none ∧ c.state = none ∧ c.zip_code = none) := by
  induction l generalizing db with
  | nil => exact Or.inl hc
  | cons x t ih =>
    rw [List.foldl_cons] at hc
    rcases ih (insertCustomer db x) hc with h | h
    · exact insertCustomer_mem db x c h
    · exact Or.inr h

theorem insertCustomer_grows (db : DB) (a : String) :
    db.customers <+: (insertCustomer db a).customers := by
  unfold insertCustomer
  split
  · exact ⟨[], List.append_nil _⟩
  · exact ⟨_, rfl⟩

theorem custFold_grows (l : List String) (db : DB) :
    db.customers <+: (l.foldl insertCustomer db).customers := by
  induction l generalizing db with
  | nil => exact ⟨[], List.append_nil _⟩
  | cons x t ih =>
    exact (insertCustomer_grows db x).trans (ih (insertCustomer db x))

end DW

namespace DW

/-! ## Product-phase lemmas -/

theorem upsertProduct_customers (db : DB) (x : String × ℚ) :
    (upsertProduct db x).customers = db.customers := by
  unfold upsertProduct; split <;> rfl

theorem upsertProduct_facts (db : DB) (x : String × ℚ) :
    (upsertProduct db x).facts = db.facts := by
  unfold upsertProduct; split <;> rfl

theorem prodFold_customers (pairs : List (String × ℚ)) (db : DB) :
    (pairs.foldl upsertProduct db).customers = db.customers :=
  ETL.foldl_field_eq upsertProduct DB.customers upsertProduct_customers _ _

theorem prodFold_facts (pairs : List (String × ℚ)) (db : DB) :
    (pairs.foldl upsertProduct db).facts = db.facts :=
  ETL.foldl_field_eq upsertProduct DB.facts upsertProduct_facts _ _

/-- The `DO UPDATE` row function never changes a row's name. -/
theorem update_preserves_name (x : String × ℚ) (q : ProductRow) :
    ((fun q => if q.product_name == x.1 then
        { q with price_each := x.2, category := none } else q) q).product_name
      = q.product_name := by
  dsimp only
  split <;> rfl

theorem upsertProduct_namePresent_mono (db : DB) (x : String × ℚ) (n : String)
    (h : namePresent db.products n = true) :
    namePresent (upsertProduct db x).products n = true := by
  unfold upsertProduct namePresent at *
  rcases List.any_eq_true.mp h with ⟨q, hq, hqn⟩
  split
  · refine List.any_eq_true.mpr ⟨_, List.mem_map_of_mem _ hq, ?_⟩
    rw [update_preserves_name]
    exact hqn
  · exact List.any_eq_true.mpr ⟨q, List.mem_append_left _ hq, hqn⟩

theorem upsertProduct_namePresent_self (db : DB) (x : String × ℚ) :
    namePresent (upsertProduct db x).products x.1 = true := by
  unfold upsertProduct namePresent
  split
  · next h =>
    rcases List.any_eq_true.mp h with ⟨q, hq, hqn⟩
    refine List.any_eq_true.mpr ⟨_, List.mem_map_of_mem _ hq, ?_⟩
    rw [update_preserves_name]
    exact hqn
  · simp

theorem prodFold_namePresent_mono (pairs : List (String × ℚ)) (db : DB) (n : String)
    (h : namePresent db.products n = true) :
    namePresent ((pairs.foldl upsertProduct db)).products n = true := by
  induction pairs generalizing db with
  | nil => exact h
  | cons x t ih => exact ih (upsertProduct db x) (upsertProduct_namePresent_mono db x n h)

end DW

namespace DW

theorem upsert_rowsFor_other (db : DB) (x : String × ℚ) (n : String) (hx : x.1 ≠ n) :
    rowsFor (upsertProduct db x).products n = rowsFor db.products n := by
  unfold upsertProduct rowsFor
  split
  · rw [List.filter_map]
    rw [List.filter_congr (q := fun q => q.product_name == n)
      (fun q _ => by rw [Function.comp_apply, update_preserves_name])]
    refine ETL.map_eq_self _ _ (fun q hq => ?_)
    have hqn : q.product_name = n := by
      have := (List.mem_filter.mp hq).2
      exact beq_iff_eq.mp this
    have : (q.product_name == x.1) = false := by
      rw [hqn]
      exact beq_eq_false_iff_ne.mpr (fun h => hx h.symm)
    simp only [this]
    rfl
  · have hfx : (x.1 == n) = false := beq_eq_false_iff_ne.mpr hx
    rw [List.filter_append]
    simp [hfx]

theorem upsert_rowsFor_self (db : DB) (x : String × ℚ) :
    ∀ q ∈ rowsFor (upsertProduct db x).products x.1,
      q.price_each = x.2 ∧ q.category = none := by
  unfold upsertProduct rowsFor
  intro q hq
  split at hq
  · rcases List.mem_filter.mp hq with ⟨hmem, hbeq⟩
    rcases List.mem_map.mp hmem with ⟨q₀, _, rfl⟩
    rw [update_preserves_name] at hbeq
    simp [hbeq]
  · rcases List.mem_filter.mp hq with ⟨hmem, hbeq⟩
    rcases List.mem_append.mp hmem with h | h
    · next hguard =>
      exfalso
      rw [Bool.not_eq_true] at hguard
      have : db.products.any (fun q => q.product_name == x.1) = true :=
        List.any_eq_true.mpr ⟨q, h, hbeq⟩
      rw [this] at hguard
      cases hguard
    · simp only [List.mem_singleton] at h
      subst h
      exact ⟨rfl, rfl⟩

theorem prodFold_rowsFor_other (pairs : List (String × ℚ)) (db : DB) (n : String)
    (h : ∀ x ∈ pairs, x.1 ≠ n) :
    rowsFor (pairs.foldl upsertProduct db).products n = rowsFor db.products n := by
  induction pairs generalizing db with
  | nil => rfl
  | cons x t ih =>
    rw [List.foldl_cons,
      ih (upsertProduct db x) (fun y hy => h y (List.mem_cons_of_mem x hy)),
      upsert_rowsFor_other db x n (h x (List.mem_cons_self x t))]

theorem hasDupNames_cons (a : String) (t : List String) :
    hasDupNames (a :: t) = (t.contains a || hasDupNames t) := rfl

theorem prodFold_post (pairs : List (String × ℚ)) (db : DB)
    (hnd : hasDupNames (pairs.map Prod.fst) = false) :
    ∀ x ∈ pairs,
      namePresent ((pairs.foldl upsertProduct db)).products x.1 = true ∧
      ∀ q ∈ rowsFor ((pairs.foldl upsertProduct db)).products x.1,
        q.price_each = x.2 ∧ q.category = none := by
  induction pairs generalizing db with
  | nil => intro x hx; cases hx
  | cons y t ih =>
    rw [List.map_cons, hasDupNames_cons, Bool.or_eq_false_iff] at hnd
    have hyt : ∀ z ∈ t, z.1 ≠ y.1 := by
      intro z hz heq
      have : (t.map Prod.fst).contains y.1 = true :=
        List.contains_iff_exists_mem_beq.mpr
          ⟨z.1, List.mem_map_of_mem _ hz, beq_iff_eq.mpr heq.symm⟩
      rw [this] at hnd
      cases hnd.1
    intro x hx
    rcases List.mem_cons.mp hx with rfl | hx'
    · constructor
      · rw [List.foldl_cons]
        exact prodFold_namePresent_mono t (upsertProduct db x) x.1
          (upsertProduct_namePresent_self db x)
      · rw [List.foldl_cons, prodFold_rowsFor_other t (upsertProduct db x) x.1 hyt]
        exact upsert_rowsFor_self db x
    · rw [List.foldl_cons]
      exact ih (upsertProduct db y) hnd.2 x hx'

end DW

namespace DW

/-- Re-applying the product upsert when every pair's rows already carry its
price (and a null category) leaves the table contents unchanged. -/
theorem prodFold_noop (pairs : List (String × ℚ)) (db : DB)
    (h : ∀ x ∈ pairs, namePresent db.products x.1 = true ∧
      ∀ q ∈ rowsFor db.products x.1, q.price_each = x.2 ∧ q.category = none) :
    (pairs.foldl upsertProduct db).products = db.products := by
  induction pairs generalizing db with
  | nil => rfl
  | cons x t ih =>
    rcases h x (List.mem_cons_self x t) with ⟨hpres, hrows⟩
    have hstep : (upsertProduct db x).products = db.products := by
      unfold upsertProduct
      rw [if_pos (by unfold namePresent at hpres; exact hpres)]
      refine ETL.map_eq_self _ _ (fun q hq => ?_)
      by_cases h0 : (q.product_name == x.1) = true
      · have := hrows q (List.mem_filter.mpr ⟨hq, h0⟩)
        simp only [h0, if_true]
        cases q
        simp_all
      · rw [Bool.not_eq_true] at h0
        simp [h0]
    rw [List.foldl_cons,
      ih (upsertProduct db x) (fun y hy => by
        rw [namePresent, rowsFor, hstep]
        exact h y (List.mem_cons_of_mem x hy)),
      hstep]

/-- Every product row after the fold was in the table before or carries a
null category. -/
theorem upsertProduct_mem (db : DB) (x : String × ℚ) (q : ProductRow)
    (hq : q ∈ (upsertProduct db x).products) :
    q ∈ db.products ∨ q.category = none := by
  unfold upsertProduct at hq
  split at hq
  · rcases List.mem_map.mp hq with ⟨q₀, hq₀, rfl⟩
    by_cases h0 : (q₀.product_name == x.1) = true
    · simp [h0]
    · rw [Bool.not_eq_true] at h0
      simp only [h0, Bool.false_eq_true, if_false]
      exact Or.inl hq₀
  · rcases List.mem_append.mp hq with h | h
    · exact Or.inl h
    · simp only [List.mem_singleton] at h
      subst h
      exact Or.inr rfl

theorem prodFold_mem (pairs : List (String × ℚ)) (db : DB) (q : ProductRow)
    (hq : q ∈ (pairs.foldl upsertProduct db).products) :
    q ∈ db.products ∨ q.category = none := by
  induction pairs generalizing db with
  | nil => exact Or.inl hq
  | cons x t ih =>
    rw [List.foldl_cons] at hq
    rcases ih (upsertProduct db x) hq with h | h
    · exact upsertProduct_mem db x q h
    · exact Or.inr h

/-- Upserting never removes a surrogate key from `dim_product`. -/
theorem upsertProduct_pk_mono (db : DB) (x : String × ℚ) (k : Nat)
    (h : ∃ q ∈ db.products, q.product_pk = k) :
    ∃ q ∈ (upsertProduct db x).products, q.product_pk = k := by
  rcases h with ⟨q, hq, hk⟩
  unfold upsertProduct
  split
  · refine ⟨_, List.mem_map_of_mem _ hq, ?_⟩
    dsimp only
    split
    · exact hk
    · exact hk
  · exact ⟨q, List.mem_append_left _ hq, hk⟩

theorem prodFold_pk_mono (pairs : List (String × ℚ)) (db : DB) (k : Nat)
    (h : ∃ q ∈ db.products, q.product_pk = k) :
    ∃ q ∈ (pairs.foldl upsertProduct db).products, q.product_pk = k := by
  induction pairs generalizing db with
  | nil => exact h
  | cons x t ih => exact ih (upsertProduct db x) (upsertProduct_pk_mono db x k h)

/-! ## Fact-phase lemmas -/

theorem insertFact_customers (db : DB) (f : FactRow) :
    (insertFact db f).customers = db.customers := by
  unfold insertFact; split <;> rfl

theorem insertFact_products (db : DB) (f : FactRow) :
    (insertFact db f).products = db.products := by
  unfold insertFact; split <;> rfl

theorem factFold_customers (fs : List FactRow) (db : DB) :
    (fs.foldl insertFact db).customers = db.customers :=
  ETL.foldl_field_eq insertFact DB.customers insertFact_customers _ _

theorem factFold_products (fs : List FactRow) (db : DB) :
    (fs.foldl insertFact db).products = db.products :=
  ETL.foldl_field_eq insertFact DB.products insertFact_products _ _

theorem insertFact_oid_mono (db : DB) (g : FactRow) (o : String)
    (h : oidPresent db.facts o = true) :
    oidPresent (insertFact db g).facts o = true := by
  unfold insertFact oidPresent at *
  split
  · exact h
  · simp only [List.any_append, h, Bool.true_or]

theorem insertFact_oid_self (db : DB) (g : FactRow) :
    oidPresent (insertFact db g).facts g.order_id = true := by
  unfold insertFact oidPresent
  split
  · assumption
  · simp

theorem factFold_oid_mono (fs : List FactRow) (db : DB) (o : String)
    (h : oidPresent db.facts o = true) :
    oidPresent ((fs.foldl insertFact db)).facts o = true := by
  induction fs generalizing db with
  | nil => exact h
  | cons g t ih => exact ih (insertFact db g) (insertFact_oid_mono db g o h)

theorem factFold_oid_present (fs : List FactRow) (db : DB) (g : FactRow)
    (hg : g ∈ fs) :
    oidPresent ((fs.foldl insertFact db)).facts g.order_id = true := by
  induction fs generalizing db with
  | nil => cases hg
  | cons g' t ih =>
    rcases List.mem_cons.mp hg with rfl | hg'
    · exact factFold_oid_mono t (insertFact db g) g.order_id
        (insertFact_oid_self db g)
    · exact ih (insertFact db g') hg'

theorem insertFact_noop (db : DB) (g : FactRow)
    (h : oidPresent db.facts g.order_id = true) :
    insertFact db g = db := by
  unfold insertFact
  rw [if_pos (by unfold oidPresent at h; exact h)]

theorem factFold_noop (fs : List FactRow) (db : DB)
    (h : ∀ g ∈ fs, oidPresent db.facts g.order_id = true) :
    fs.foldl insertFact db = db := by
  induction fs with
  | nil => rfl
  | cons g t ih =>
    rw [List.foldl_cons, insertFact_noop db g (h g (List.mem_cons_self g t))]
    exact ih (fun g' hg' => h g' (List.mem_cons_of_mem g hg'))

theorem insertFact_grows (db : DB) (g : FactRow) :
    db.facts <+: (insertFact db g).facts := by
  unfold insertFact
  split
  · exact ⟨[], List.append_nil _⟩
  · exact ⟨_, rfl⟩

theorem factFold_grows (fs : List FactRow) (db : DB) :
    db.facts <+: (fs.foldl insertFact db).facts := by
  induction fs generalizing db with
  | nil => exact ⟨[], List.append_nil _⟩
  | cons g t ih => exact (insertFact_grows db g).trans (ih (insertFact db g))

/-- Folding the fact upsert never touches the rows of an order id that is
already present: no second write for that key ever lands. -/
theorem factFold_filter_eq (fs : List FactRow) (db : DB) (o : String)
    (h : oidPresent db.facts o = true) :
    ((fs.foldl insertFact db)).facts.filter (fun f => f.order_id == o) =
      db.facts.filter (fun f => f.order_id == o) := by
  induction fs generalizing db with
  | nil => rfl
  | cons g t ih =>
    rw [List.foldl_cons]
    have hstep : (insertFact db g).facts.filter (fun f => f.order_id == o) =
        db.facts.filter (fun f => f.order_id == o) := by
      unfold insertFact
      split
      · rfl
      · next hng =>
        rw [List.filter_append]
        have hgo : (g.order_id == o) = false := by
          by_contra hc
          rw [Bool.not_eq_false, beq_iff_eq] at hc
          rw [Bool.not_eq_true] at hng
          rw [hc] at hng
          unfold oidPresent at h
          rw [h] at hng
          cases hng
        simp [hgo]
    rw [ih (insertFact db g) (insertFact_oid_mono db g o h), hstep]

theorem factFold_mem (fs : List FactRow) (db : DB) (f : FactRow)
    (hf : f ∈ (fs.foldl insertFact db).facts) :
    f ∈ db.facts ∨ f ∈ fs := by
  induction fs generalizing db with
  | nil => exact Or.inl hf
  | cons g t ih =>
    rw [List.foldl_cons] at hf
    rcases ih (insertFact db g) hf with h | h
    · unfold insertFact at h
      split at h
      · exact Or.inl h
      · rcases List.mem_append.mp h with h' | h'
        · exact Or.inl h'
        · simp only [List.mem_singleton] at h'
          subst h'
          exact Or.inr (List.mem_cons_self f t)
    · exact Or.inr (List.mem_cons_of_mem g h)

end DW

namespace Staging

/-- A row fails the all-empty test exactly when some cell is non-empty. -/
theorem not_isAllEmpty (r : List ETL.Cell) :
    (!isAllEmpty r) = r.any (fun c => c.isSome) := by
  unfold isAllEmpty
  induction r with
  | nil => rfl
  | cons c t ih =>
    rw [List.all_cons, List.any_cons, Bool.not_and, ih]
    cases c <;> rfl

/-- C10: the Cleaner preserves every row that has at least one non-empty
cell — the output rows are exactly the input rows with some non-empty cell,
kept in their original order with their cell contents unchanged, and only
the column names are rewritten (the column count is unchanged). -/
theorem cleaner_preserves_nonempty_rows (f : ETL.Frame) :
    (cleanFrame f).rows = f.rows.filter (fun r => r.any (fun c => c.isSome)) ∧
    (cleanFrame f).rows.Sublist f.rows ∧
    (cleanFrame f).cols.length = f.cols.length := by
  refine ⟨?_, ?_, ?_⟩
  · exact List.filter_congr (fun r _ => not_isAllEmpty r)
  · exact List.filter_sublist _
  · exact List.length_map _ _

/-- C7 counterexample: the Cleaner does *not* replace hyphens — a column
named `"Order-Date"` comes out as `"order-date"`, not `"order_date"`
(`clean_data.py` line 12 only calls `.replace(" ", "_")`). -/
theorem cleaner_hyphen_counterexample :
    cleanFiles [("sales.csv", { cols := ["Order-Date"], rows := [] })]
      = [("sales.csv", { cols := ["order-date"], rows := [] })] ∧
    "order-date" ≠ "order_date" := by
  refine ⟨?_, by decide⟩
  with_unfolding_all decide

/-- C7 (amended): for every raw `.csv` file the Cleaner normalizes each
column name by trimming whitespace, lowercasing and replacing spaces (but
*not* hyphens) with underscores, removes every row in which all cells are
empty, and writes the result under the same filename. -/
theorem cleaner_normalizes_files (name : String) (f : ETL.Frame)
    (h : ETL.pyEndsWith name ".csv" = true) :
    cleanFiles [(name, f)] =
      [(name,
        { cols := f.cols.map (fun c =>
            ETL.replaceChar ' ' '_' (ETL.pyLower (ETL.pyStrip c)))
          rows := f.rows.filter (fun r => !(r.all (fun c => c.isNone))) })] := by
  unfold cleanFiles cleanFrame normalizeCol isAllEmpty
  simp [h]

theorem cleaner_normalizes_files_witness :
    ETL.pyEndsWith "sales.csv" ".csv" = true ∧
    cleanFiles [("sales.csv", frameW)] =
      [("sales.csv",
        { cols := frameW.cols.map (fun c =>
            ETL.replaceChar ' ' '_' (ETL.pyLower (ETL.pyStrip c)))
          rows := frameW.rows.filter (fun r => !(r.all (fun c => c.isNone))) })] :=
  ⟨by decide, cleaner_normalizes_files "sales.csv" frameW (by decide)⟩

end Staging

namespace DW

/-- C4 counterexample: with the column named `" A"`, the data row `[" a"]`
matches the header case-insensitively (the spec's leaked-header condition),
yet the ingest filter keeps it: the code strips the cell but not the column
name, so the comparison fails and the row is not dropped. -/
theorem leaked_header_ci_counterexample :
    specMatchesHeaderCI [" A"] [some " a"] = true ∧
    (leakedHeaderFilter { cols := [" A"], rows := [[some " a"]] }).rows
      = [[some " a"]] := by
  with_unfolding_all decide

/-- C4 (amended): during ingest the loader drops exactly the rows in which
every cell, after stripping surrounding whitespace and lowercasing, equals
the lowercased (but unstripped) column name; such rows never reach the
combined batch, hence none of the three tables. -/
theorem leaked_header_filter_amended (f : ETL.Frame) (r : List ETL.Cell)
    (hr : r ∈ f.rows) :
    (isLeakedRow f.cols r = true → r ∉ (leakedHeaderFilter f).rows) ∧
    (isLeakedRow f.cols r = false → r ∈ (leakedHeaderFilter f).rows) := by
  constructor
  · intro h hmem
    have hc := (List.mem_filter.mp hmem).2
    rw [h] at hc
    cases hc
  · intro h
    exact List.mem_filter.mpr ⟨hr, by rw [h]; rfl⟩

theorem leaked_header_filter_amended_witness :
    isLeakedRow hdrFrame.cols [some " order id ", some "PRODUCT"] = true ∧
    [some " order id ", some "PRODUCT"] ∉ (leakedHeaderFilter hdrFrame).rows :=
  ⟨by decide,
   (leaked_header_filter_amended hdrFrame [some " order id ", some "PRODUCT"]
     (by decide)).1 (by decide)⟩

/-- C6 counterexample: a combined batch holding a numeric but non-integral
quantity `"2.5"` makes `astype("Int64")` raise (pandas' safe cast), so type
coercion aborts the run instead of coercing — refuting "type coercion never
aborts". -/
theorem coercion_abort_counterexample :
    (coerceBatch [stagedFrac]).isOk = false := by
  with_unfolding_all decide

/-- C6 (amended): type coercion never aborts on *non-numeric* values — a
non-numeric quantity is coerced to 0 and the row is kept, a non-numeric
price is coerced to 0.0, and an unparseable date becomes null instead of an
error; a numeric but non-integral quantity, however, still aborts the cast. -/
theorem coercion_defaults_amended (r : StagedRow) (rr : RawRow) (d : String)
    (hq : r.quantity_ordered.bind parseDecimal? = none)
    (hp : r.price_each.bind parseDecimal? = none)
    (hrr : rr.order_date = some d)
    (hd : parseDate? d = none) :
    (coerceRow r = .ok
      { order_id := r.order_id
        product := r.product
        quantity := 0
        price := 0
        order_date := r.order_date
        purchase_address := r.purchase_address }) ∧
    (stageRow rr).order_date = none := by
  constructor
  · unfold coerceRow coerceQty coercePrice
    rw [hq, hp]
    rfl
  · unfold stageRow
    rw [hrr]
    simpa using hd

theorem coercion_defaults_amended_witness :
    stagedNA.quantity_ordered.bind parseDecimal? = none ∧
    stagedNA.price_each.bind parseDecimal? = none ∧
    rawND.order_date = some "not a date" ∧
    parseDate? "not a date" = none ∧
    ((coerceRow stagedNA = .ok
      { order_id := stagedNA.order_id
        product := stagedNA.product
        quantity := 0
        price := 0
        order_date := stagedNA.order_date
        purchase_address := stagedNA.purchase_address }) ∧
     (stageRow rawND).order_date = none) :=
  ⟨by with_unfolding_all decide, by with_unfolding_all decide, by decide, by decide,
   coercion_defaults_amended stagedNA rawND "not a date"
     (by with_unfolding_all decide) (by with_unfolding_all decide)
     (by decide) (by decide)⟩

end DW

namespace SL

/-- C9: `insert_data_from_df` inserts the rows in order but silently skips
every row in which some cell is the exact, case-sensitive string
`'Order Date'` — even an otherwise legitimate data row — and inserts every
other row. -/
theorem insert_skips_order_date_rows (rows : List (List PyVal))
    (r : List PyVal) (hr : r ∈ rows) :
    (insert_data_from_df rows).Sublist rows ∧
    (PyVal.str "Order Date" ∈ r → r ∉ insert_data_from_df rows) ∧
    (PyVal.str "Order Date" ∉ r → r ∈ insert_data_from_df rows) := by
  refine ⟨List.filter_sublist _, ?_, ?_⟩
  · intro h hmem
    have hc := (List.mem_filter.mp hmem).2
    have : r.contains (PyVal.str "Order Date") = true := List.elem_iff.mpr h
    rw [this] at hc
    cases hc
  · intro h
    refine List.mem_filter.mpr ⟨hr, ?_⟩
    have : r.contains (PyVal.str "Order Date") = false := by
      by_contra hc
      rw [Bool.not_eq_false] at hc
      exact h (List.elem_iff.mp hc)
    rw [this]
    rfl

theorem insert_skips_order_date_rows_witness :
    ([PyVal.str "A-1", PyVal.str "Order Date"] ∉ insert_data_from_df rowsOD) ∧
    ([PyVal.str "A-2", PyVal.str "order date"] ∈ insert_data_from_df rowsOD) :=
  ⟨(insert_skips_order_date_rows rowsOD _ (by decide)).2.1 (by decide),
   (insert_skips_order_date_rows rowsOD _ (by decide)).2.2 (by decide)⟩

end SL

namespace DW

/-- C2 counterexample: a batch carrying product `"P"` at two distinct prices
leaves *two* rows for the name `"P"` after product extraction —
`drop_duplicates()` works on (name, price) pairs, not per name — and the
product merge then fails instead of storing a latest price. -/
theorem product_two_prices_counterexample :
    (productPairs [rowP10, rowP20]).map Prod.fst = ["P", "P"] ∧
    (loadProducts emptyDB [rowP10, rowP20]).isOk = false := by
  with_unfolding_all decide

/-- C2 (amended): product extraction keeps at most one row per distinct
(product name, price) pair — the first occurrence — dropping null names; when
every product name of the batch carries a single distinct price, the product
merge succeeds and afterwards every `dim_product` row holding a batch name
stores that pair's price (the most recently loaded one) with a null
category. -/
theorem product_extraction_amended (db : DB) (batch : List CoercedRow)
    (h : hasDupNames ((productPairs batch).map Prod.fst) = false) :
    (productPairs batch).Nodup ∧
    ∃ db', loadProducts db batch = .ok db' ∧
      ∀ x ∈ productPairs batch, ∀ q ∈ db'.products,
        q.product_name = x.1 → q.price_each = x.2 ∧ q.category = none := by
  constructor
  · unfold productPairs
    refine List.Nodup.filterMap ?_ (ETL.dedupFirstAux_nodup _ _)
    rintro ⟨o₁, p₁⟩ ⟨o₂, p₂⟩ ⟨n, p⟩ h₁ h₂
    rw [Option.mem_def, Option.map_eq_some'] at h₁ h₂
    rcases h₁ with ⟨a₁, rfl, he₁⟩
    rcases h₂ with ⟨a₂, rfl, he₂⟩
    rcases Prod.mk.inj he₁ with ⟨rfl, rfl⟩
    rcases Prod.mk.inj he₂ with ⟨rfl, rfl⟩
    rfl
  · refine ⟨(productPairs batch).foldl upsertProduct db, ?_, ?_⟩
    · unfold loadProducts
      rw [if_neg (by rw [h]; exact Bool.false_ne_true)]
    · intro x hx q hq hname
      exact (prodFold_post (productPairs batch) db h x hx).2 q
        (List.mem_filter.mpr ⟨hq, beq_iff_eq.mpr hname⟩)

theorem product_extraction_amended_witness :
    hasDupNames ((productPairs [rowP10]).map Prod.fst) = false ∧
    ((productPairs [rowP10]).Nodup ∧
     ∃ db', loadProducts emptyDB [rowP10] = .ok db' ∧
       ∀ x ∈ productPairs [rowP10], ∀ q ∈ db'.products,
         q.product_name = x.1 → q.price_each = x.2 ∧ q.category = none) :=
  ⟨by with_unfolding_all decide,
   product_extraction_amended emptyDB [rowP10] (by with_unfolding_all decide)⟩

/-- C8: every dimension row the loader creates has all descriptive attributes
null — a customer row not present before the run has null city, state and
zip_code (the insert populates only `purchase_address`), and a product row
not present before the run has a null category. -/
theorem new_dim_rows_null_attributes (files : List (List RawRow)) (db : DB) :
    (∀ c ∈ (runLoader files db).customers, c ∉ db.customers →
      c.city = none ∧ c.state = none ∧ c.zip_code = none) ∧
    (∀ p ∈ (runLoader files db).products, p ∉ db.products →
      p.category = none) := by
  unfold runLoader
  cases hcb : coerceBatch (combineFiles files) with
  | error e =>
    exact ⟨fun c hc hnc => absurd hc hnc, fun p hp hnp => absurd hp hnp⟩
  | ok batch =>
    simp only
    cases hd : hasDupNames ((productPairs batch).map Prod.fst) with
    | true =>
      have : loadProducts (loadCustomers db batch) batch =
          .error "ON CONFLICT DO UPDATE command cannot affect row a second time" := by
        unfold loadProducts
        rw [if_pos hd]
      rw [this]
      constructor
      · intro c hc hnc
        rcases custFold_mem _ db c hc with h | h
        · exact absurd h hnc
        · exact h
      · intro p hp hnp
        rw [loadCustomers_products] at hp
        exact absurd hp hnp
    | false =>
      have : loadProducts (loadCustomers db batch) batch =
          .ok ((productPairs batch).foldl upsertProduct (loadCustomers db batch)) := by
        unfold loadProducts
        rw [if_neg (by rw [hd]; exact Bool.false_ne_true)]
      rw [this]
      constructor
      · intro c hc hnc
        unfold loadFacts at hc
        rw [factFold_customers, prodFold_customers] at hc
        rcases custFold_mem _ db c hc with h | h
        · exact absurd h hnc
        · exact h
      · intro p hp hnp
        unfold loadFacts at hp
        rw [factFold_products] at hp
        rcases prodFold_mem _ _ p hp with h | h
        · rw [loadCustomers_products] at h
          exact absurd h hnp
        · exact h

theorem new_dim_rows_null_attributes_witness :
    ({ customer_pk := 1, purchase_address := "917 1st St, Dallas, TX 75001",
       city := none, state := none, zip_code := none } : CustomerRow)
        ∈ (runLoader [[rawA]] emptyDB).customers ∧
    ({ product_pk := 1, product_name := "USB-C Cable",
       price_each := mkRat 1195 100, category := none } : ProductRow)
        ∈ (runLoader [[rawA]] emptyDB).products ∧
    (({ customer_pk := 1, purchase_address := "917 1st St, Dallas, TX 75001",
        city := none, state := none, zip_code := none } : CustomerRow).city = none) ∧
    (({ product_pk := 1, product_name := "USB-C Cable",
        price_each := mkRat 1195 100, category := none } : ProductRow).category = none) :=
  ⟨by with_unfolding_all decide,
   by with_unfolding_all decide,
   ((new_dim_rows_null_attributes [[rawA]] emptyDB).1 _
     (by with_unfolding_all decide) (by with_unfolding_all decide)).1,
   (new_dim_rows_null_attributes [[rawA]] emptyDB).2 _
     (by with_unfolding_all decide) (by with_unfolding_all decide)⟩

end DW

namespace DW

/-- A successful customer-key lookup names an existing `dim_customer` row. -/
theorem lookupCustomerPk_mem (cs : List CustomerRow) (addr : ETL.Cell) (k : Nat)
    (h : lookupCustomerPk cs addr = some k) : ∃ c ∈ cs, c.customer_pk = k := by
  unfold lookupCustomerPk at h
  cases addr with
  | none => cases h
  | some a =>
    dsimp only at h
    cases hf : cs.find? (fun c => c.purchase_address == a) with
    | none => rw [hf] at h; cases h
    | some c =>
      rw [hf] at h
      exact ⟨c, List.mem_of_find?_eq_some hf, Option.some.inj h⟩

/-- A successful product-key lookup names an existing `dim_product` row. -/
theorem lookupProductPk_mem (ps : List ProductRow) (name : ETL.Cell) (k : Nat)
    (h : lookupProductPk ps name = some k) : ∃ p ∈ ps, p.product_pk = k := by
  unfold lookupProductPk at h
  cases name with
  | none => cases h
  | some n =>
    dsimp only at h
    cases hf : ps.find? (fun p => p.product_name == n) with
    | none => rw [hf] at h; cases h
    | some p =>
      rw [hf] at h
      exact ⟨p, List.mem_of_find?_eq_some hf, Option.some.inj h⟩

/-- Every derived fact row's foreign keys resolve to rows of the dimension
tables it was joined against. -/
theorem deriveFacts_resolved (cs : List CustomerRow) (ps : List ProductRow)
    (batch : List CoercedRow) (f : FactRow)
    (hf : f ∈ deriveFacts cs ps batch) :
    (∃ c ∈ cs, c.customer_pk = f.customer_pk) ∧
    (∃ p ∈ ps, p.product_pk = f.product_pk) := by
  unfold deriveFacts at hf
  rcases List.mem_filterMap.mp hf with ⟨r, _, hsome⟩
  cases ho : r.order_id with
  | none => rw [ho] at hsome; cases hsome
  | some oid =>
    cases hc : lookupCustomerPk cs r.purchase_address with
    | none => rw [ho, hc] at hsome; cases hsome
    | some cpk =>
      cases hp : lookupProductPk ps r.product with
      | none => rw [ho, hc, hp] at hsome; cases hsome
      | some ppk =>
        cases hdt : r.order_date with
        | none => rw [ho, hc, hp, hdt] at hsome; cases hsome
        | some dt =>
          rw [ho, hc, hp, hdt] at hsome
          have hfeq := Option.some.inj hsome
          rw [← hfeq]
          exact ⟨lookupCustomerPk_mem cs r.purchase_address cpk hc,
                 lookupProductPk_mem ps r.product ppk hp⟩

/-- A run whose combined batch fails type coercion leaves the warehouse
untouched. -/
theorem runLoader_eq_abort (files : List (List RawRow)) (db : DB) (e : String)
    (hcb : coerceBatch (combineFiles files) = .error e) :
    runLoader files db = db := by
  unfold runLoader
  rw [hcb]

/-- A run whose product merge fails commits only the customer phase. -/
theorem runLoader_eq_err (files : List (List RawRow)) (db : DB)
    (batch : List CoercedRow)
    (hcb : coerceBatch (combineFiles files) = .ok batch)
    (hd : hasDupNames ((productPairs batch).map Prod.fst) = true) :
    runLoader files db = loadCustomers db batch := by
  unfold runLoader
  rw [hcb]
  dsimp only
  unfold loadProducts
  rw [if_pos hd]

/-- A fully successful run is the three phases in sequence. -/
theorem runLoader_eq_ok (files : List (List RawRow)) (db : DB)
    (batch : List CoercedRow)
    (hcb : coerceBatch (combineFiles files) = .ok batch)
    (hd : hasDupNames ((productPairs batch).map Prod.fst) = false) :
    runLoader files db =
      loadFacts ((productPairs batch).foldl upsertProduct
        (loadCustomers db batch)) batch := by
  unfold runLoader
  rw [hcb]
  dsimp only
  unfold loadProducts
  rw [if_neg (by rw [hd]; exact Bool.false_ne_true)]

/-- C3: before the fact upsert every row missing its order id, resolved
customer key, resolved product key or order date is dropped, so a run
preserves referential integrity: if every fact row referenced an existing
customer and product row before the run, every fact row still does after it —
no fact row is ever inserted with a null or dangling foreign key. -/
theorem loader_preserves_ref_integrity (files : List (List RawRow)) (db : DB)
    (h : RefIntegrity db) : RefIntegrity (runLoader files db) := by
  cases hcb : coerceBatch (combineFiles files) with
  | error e => rw [runLoader_eq_abort files db e hcb]; exact h
  | ok batch =>
    cases hd : hasDupNames ((productPairs batch).map Prod.fst) with
    | true =>
      rw [runLoader_eq_err files db batch hcb hd]
      intro f hf
      rw [loadCustomers_facts] at hf
      rcases h f hf with ⟨⟨c, hc, hck⟩, ⟨p, hp, hpk⟩⟩
      constructor
      · exact ⟨c, (custFold_grows _ db).subset hc, hck⟩
      · rw [loadCustomers_products]
        exact ⟨p, hp, hpk⟩
    | false =>
      rw [runLoader_eq_ok files db batch hcb hd]
      intro f hf
      unfold loadFacts at hf
      unfold loadFacts
      rw [factFold_customers, factFold_products]
      rcases factFold_mem _ _ f hf with hOld | hNew
      · rw [prodFold_facts, loadCustomers_facts] at hOld
        rcases h f hOld with ⟨⟨c, hc, hck⟩, ⟨p, hp, hpk⟩⟩
        constructor
        · rw [prodFold_customers]
          exact ⟨c, (custFold_grows _ db).subset hc, hck⟩
        · exact prodFold_pk_mono _ _ f.product_pk
            ⟨p, by rw [loadCustomers_products]; exact hp, hpk⟩
      · exact deriveFacts_resolved _ _ batch f hNew

theorem loader_preserves_ref_integrity_witness :
    RefIntegrity emptyDB ∧ RefIntegrity (runLoader [[rawA]] emptyDB) :=
  ⟨fun f hf => absurd hf (List.not_mem_nil f),
   loader_preserves_ref_integrity [[rawA]] emptyDB
     (fun f hf => absurd hf (List.not_mem_nil f))⟩

/-- C5: fact rows are first-write-wins — a run never modifies the fact rows
already present (they stay as an unchanged prefix), and when an order id is
already in `fact_sales`, re-inserting it is a no-op: the stored rows for that
order id after the run are exactly those from before, so only the
first-loaded row for a twice-loaded order id persists. -/
theorem fact_first_write_wins (files : List (List RawRow)) (db : DB)
    (oid : String) (h : oidPresent db.facts oid = true) :
    db.facts <+: (runLoader files db).facts ∧
    (runLoader files db).facts.filter (fun f => f.order_id == oid) =
      db.facts.filter (fun f => f.order_id == oid) := by
  cases hcb : coerceBatch (combineFiles files) with
  | error e =>
    rw [runLoader_eq_abort files db e hcb]
    exact ⟨⟨[], List.append_nil _⟩, rfl⟩
  | ok batch =>
    cases hd : hasDupNames ((productPairs batch).map Prod.fst) with
    | true =>
      rw [runLoader_eq_err files db batch hcb hd, loadCustomers_facts]
      exact ⟨⟨[], List.append_nil _⟩, rfl⟩
    | false =>
      rw [runLoader_eq_ok files db batch hcb hd]
      unfold loadFacts
      have hfacts : ((productPairs batch).foldl upsertProduct
          (loadCustomers db batch)).facts = db.facts := by
        rw [prodFold_facts, loadCustomers_facts]
      constructor
      · rw [← hfacts]
        exact factFold_grows _ _
      · rw [factFold_filter_eq _ _ oid (by rw [hfacts]; exact h), hfacts]

theorem fact_first_write_wins_witness :
    oidPresent (runLoader [[rawA]] emptyDB).facts "A-100" = true ∧
    ((runLoader [[rawA]] emptyDB).facts
        <+: (runLoader [[rawA3]] (runLoader [[rawA]] emptyDB)).facts ∧
      (runLoader [[rawA3]] (runLoader [[rawA]] emptyDB)).facts.filter
          (fun f => f.order_id == "A-100") =
        (runLoader [[rawA]] emptyDB).facts.filter
          (fun f => f.order_id == "A-100")) :=
  ⟨by with_unfolding_all decide,
   fact_first_write_wins [[rawA3]] (runLoader [[rawA]] emptyDB) "A-100"
     (by with_unfolding_all decide)⟩

end DW

namespace DW

theorem loadFacts_customers (db : DB) (b : List CoercedRow) :
    (loadFacts db b).customers = db.customers :=
  factFold_customers _ _

theorem loadFacts_products (db : DB) (b : List CoercedRow) :
    (loadFacts db b).products = db.products :=
  factFold_products _ _

/-- Re-running the three load phases against a state that already contains
every address, every (name, price) pair and every derivable fact of the
batch leaves all three table contents unchanged. -/
theorem second_run_noop (batch : List CoercedRow) (s : DB)
    (hcust : ∀ a ∈ customerAddrs batch, addrPresent s.customers a = true)
    (hprod : ∀ x ∈ productPairs batch,
      namePresent s.products x.1 = true ∧
      ∀ q ∈ rowsFor s.products x.1, q.price_each = x.2 ∧ q.category = none)
    (hfact : ∀ g ∈ deriveFacts s.customers s.products batch,
      oidPresent s.facts g.order_id = true) :
    (loadFacts ((productPairs batch).foldl upsertProduct
        (loadCustomers s batch)) batch).customers = s.customers ∧
    (loadFacts ((productPairs batch).foldl upsertProduct
        (loadCustomers s batch)) batch).products = s.products ∧
    (loadFacts ((productPairs batch).foldl upsertProduct
        (loadCustomers s batch)) batch).facts = s.facts := by
  have c1 : (loadCustomers s batch).customers = s.customers :=
    custFold_noop _ s hcust
  have c1p : (loadCustomers s batch).products = s.products :=
    loadCustomers_products s batch
  have c1f : (loadCustomers s batch).facts = s.facts :=
    loadCustomers_facts s batch
  have p2 : ((productPairs batch).foldl upsertProduct
      (loadCustomers s batch)).products = (loadCustomers s batch).products :=
    prodFold_noop _ _ (fun x hx => by
      rw [namePresent, rowsFor, c1p]
      exact hprod x hx)
  have c2 : ((productPairs batch).foldl upsertProduct
      (loadCustomers s batch)).customers = s.customers := by
    rw [prodFold_customers, c1]
  have p2' : ((productPairs batch).foldl upsertProduct
      (loadCustomers s batch)).products = s.products := by
    rw [p2, c1p]
  have f2 : ((productPairs batch).foldl upsertProduct
      (loadCustomers s batch)).facts = s.facts := by
    rw [prodFold_facts, c1f]
  have noop : loadFacts ((productPairs batch).foldl upsertProduct
      (loadCustomers s batch)) batch =
      (productPairs batch).foldl upsertProduct (loadCustomers s batch) :=
    factFold_noop _ _ (fun g hg => by
      rw [c2, p2'] at hg
      rw [f2]
      exact hfact g hg)
  exact ⟨by rw [noop]; exact c2, by rw [noop]; exact p2', by rw [noop]; exact f2⟩

/-- C1: re-running the dimensional loader a second time on identical staging
CSVs leaves the contents of `dim_customer`, `dim_product` and `fact_sales`
identical to the contents after the first run — the customer and fact
upserts are insert-or-ignore, the product upsert overwrites each name with
the same values, and a run that aborts (cast error or failed product merge)
aborts identically both times. -/
theorem loader_idempotent (files : List (List RawRow)) (db : DB) :
    (runLoader files (runLoader files db)).customers
        = (runLoader files db).customers ∧
    (runLoader files (runLoader files db)).products
        = (runLoader files db).products ∧
    (runLoader files (runLoader files db)).facts
        = (runLoader files db).facts := by
  cases hcb : coerceBatch (combineFiles files) with
  | error e =>
    simp only [runLoader_eq_abort files _ e hcb]
    exact ⟨trivial, trivial, trivial⟩
  | ok batch =>
    cases hd : hasDupNames ((productPairs batch).map Prod.fst) with
    | true =>
      rw [runLoader_eq_err files (runLoader files db) batch hcb hd]
      rw [runLoader_eq_err files db batch hcb hd]
      refine ⟨?_, ?_, ?_⟩
      · exact custFold_noop (customerAddrs batch) (loadCustomers db batch)
          (fun a ha => custFold_present (customerAddrs batch) db a ha)
      · exact loadCustomers_products (loadCustomers db batch) batch
      · exact loadCustomers_facts (loadCustomers db batch) batch
    | false =>
      rw [runLoader_eq_ok files (runLoader files db) batch hcb hd]
      refine second_run_noop batch (runLoader files db) ?_ ?_ ?_
      · intro a ha
        rw [addrPresent, runLoader_eq_ok files db batch hcb hd,
          loadFacts_customers, prodFold_customers]
        exact custFold_present (customerAddrs batch) db a ha
      · intro x hx
        rw [namePresent, rowsFor, runLoader_eq_ok files db batch hcb hd,
          loadFacts_products]
        exact prodFold_post (productPairs batch) (loadCustomers db batch) hd x hx
      · intro g hg
        rw [runLoader_eq_ok files db batch hcb hd, loadFacts_customers,
          loadFacts_products] at hg
        rw [oidPresent, runLoader_eq_ok files db batch hcb hd]
        exact factFold_oid_present _ _ g hg

end DW
